import Mathlib

/-!
Verification of the RESP bulk-string codec, the concurrent backend and the
SADD command layer of the simple-redis repository, against its specification.

Byte buffers (`Vec<u8>`, `BytesMut`, `&[u8]`) are modelled as `List Nat`
with each element standing for one byte; the `DashMap`/`DashSet` store is
modelled as association lists over `String` keys, the standard functional
abstraction of a map with last-writer-wins insertion.
-/

namespace SimpleRedis

/-- Byte sequences: the model of `Vec<u8>` / `BytesMut` / `&[u8]`. -/
abbrev Bytes := List Nat

/-- `CRLF_LEN` from `src/resp/mod.rs`: length of the `\r\n` terminator. -/
def CRLF_LEN : Nat := 2

/-- The decode error type `RespError` (only the variants the bulk-string
codec produces): `NotComplete` (wait for more bytes), `InvalidFrameType`
(wrong prefix marker), `ParseIntError` (the length field failed to parse). -/
inductive RespError where
  | NotComplete
  | InvalidFrameType
  | ParseIntError
deriving DecidableEq, Repr

/-- Results of fallible codec operations are compared up to decidable
equality in concrete witnesses. -/
instance {α : Type} [DecidableEq α] : DecidableEq (Except RespError α) := fun a b =>
  match a, b with
  | .ok x, .ok y =>
      if h : x = y then .isTrue (by rw [h]) else .isFalse (by simp [h])
  | .ok _, .error _ => .isFalse (by simp)
  | .error _, .ok _ => .isFalse (by simp)
  | .error e, .error f =>
      if h : e = f then .isTrue (by rw [h]) else .isFalse (by simp [h])

/-- Index of the first `\r\n` pair in a byte list (`0`-based), scanning
adjacent pairs left to right. -/
def crlfIdx : Bytes → Option Nat
  | [] => none
  | [_] => none
  | a :: b :: rest =>
      if a = 13 ∧ b = 10 then some 0
      else (crlfIdx (b :: rest)).map (· + 1)

/-- Modelled from the spec: `find_crlf` of `src/resp/mod.rs` is not in the
excerpted sources. Per §4.1 step 2 it scans forward from after the one-byte
prefix marker to the first line terminator, returning the index of its `\r`
in the whole buffer, or nothing when no terminator exists yet. -/
def find_crlf (buf : Bytes) : Option Nat :=
  (crlfIdx buf.tail).map (· + 1)

/-- Big-endian accumulation of ASCII decimal digits; fails on a non-digit
byte (this models `str::parse::<usize>` rejecting non-numeric text, e.g. a
`-1` length field or lossy-decoded junk). -/
def digitsVal (acc : Nat) : Bytes → Option Nat
  | [] => some acc
  | c :: rest => if 48 ≤ c ∧ c ≤ 57 then digitsVal (acc * 10 + (c - 48)) rest else none

/-- Parse a non-empty all-digit byte list as a decimal number
(`str::parse::<usize>` also fails on the empty string). -/
def parseNat (l : Bytes) : Option Nat :=
  match l with
  | [] => none
  | _ :: _ => digitsVal 0 l

/-- Fuel-indexed decimal printer: most-significant digit first, empty on 0. -/
def toDecimalAux : Nat → Nat → Bytes
  | 0, _ => []
  | fuel + 1, n => if n = 0 then [] else toDecimalAux fuel (n / 10) ++ [n % 10 + 48]

/-- ASCII decimal representation of a natural number, the model of
`format!` on a `usize` (`0` prints as `"0"`). -/
def toDecimal (n : Nat) : Bytes :=
  if n = 0 then [48] else toDecimalAux n n

/-- Modelled from the spec: `parse_length` of `src/resp/mod.rs` is not in
the excerpted sources. Per §4.1: confirm the buffer starts with the `$`
prefix marker (else a format error), scan for the first line terminator
(none yet present: `NotComplete`, per the incremental-delivery property a
buffer too short to hold marker and terminator also reports `NotComplete`),
then read the decimal length between marker and terminator. Returns the
index of the terminator's `\r` and the parsed length. -/
def parse_length (buf : Bytes) : Except RespError (Nat × Nat) :=
  if buf.length < 3 then .error .NotComplete
  else if buf.take 1 ≠ [36] then .error .InvalidFrameType
  else
    match find_crlf buf with
    | none => .error .NotComplete
    | some e =>
        match parseNat (buf.tail.take (e - 1)) with
        | none => .error .ParseIntError
        | some n => .ok (e, n)

/-- `BulkString::encode`: `$` + decimal length + `\r\n` + payload + `\r\n`. -/
def BulkString.encode (v : Bytes) : Bytes :=
  36 :: toDecimal v.length ++ [13, 10] ++ v ++ [13, 10]

/-- `BulkString::decode` on a mutable buffer, modelled as returning the
result together with the buffer contents after the call: on any error the
buffer is returned unchanged; on success the consumed bytes are removed.
Mirrors the source: `parse_length`, then a completeness check on the bytes
after the header, then `advance`/`split_to` and `data[..len]`. -/
def BulkString.decode (buf : Bytes) : Except RespError Bytes × Bytes :=
  match parse_length buf with
  | .error e => (.error e, buf)
  | .ok (endPos, len) =>
      let remained := buf.drop (endPos + CRLF_LEN)
      if remained.length < len + CRLF_LEN then (.error .NotComplete, buf)
      else
        let data := remained.take (len + CRLF_LEN)
        (.ok (data.take len), remained.drop (len + CRLF_LEN))

/-- `BulkString::expect_length`: header length + payload length + trailing
terminator, computed without touching the buffer. -/
def BulkString.expect_length (buf : Bytes) : Except RespError Nat :=
  match parse_length buf with
  | .error e => .error e
  | .ok (endPos, len) => .ok (endPos + CRLF_LEN + len + CRLF_LEN)

/-- `NullBulkString::encode`: the fixed 5-byte sentinel `$-1\r\n`. -/
def NullBulkString.encode : Bytes := [36, 45, 49, 13, 10]

/-- `NullBulkString::expect_length`: ignores the buffer and returns 5. -/
def NullBulkString.expect_length (_buf : Bytes) : Except RespError Nat := .ok 5

/-- The `RespBulkString` enum: a real bulk string or the null marker. -/
inductive RespBulkString where
  | BulkString (data : Bytes)
  | NullBulkString
deriving DecidableEq

/-- `RespBulkString::new`: empty input maps to the null variant. -/
def RespBulkString.new (s : Bytes) : RespBulkString :=
  if s.isEmpty then .NullBulkString else .BulkString s

/-- `From<String> for RespBulkString`: the empty string maps to the null
variant, other strings carry their UTF-8 bytes. -/
def RespBulkString.fromString (s : String) : RespBulkString :=
  if s = "" then .NullBulkString
  else .BulkString (s.toUTF8.toList.map UInt8.toNat)

/-- The `RespFrame` variants exercised by the SADD/hash claims. Bulk-string
payloads appear here as `String`: every frame the command layer builds or
validates carries valid UTF-8 text, so `String::from_utf8` on these
payloads is the identity embedding (its failure path on invalid bytes is
outside the claims' inputs). -/
inductive RespFrame where
  | Integer (n : Int)
  | BulkString (s : String)
  | Array (elems : List RespFrame)

/-- Lookup in an association list (first binding wins). -/
def alLookup {α : Type} (k : String) : List (String × α) → Option α
  | [] => none
  | (k', v) :: t => if k' = k then some v else alLookup k t

/-- Insert into an association list: replace the existing binding for the
key, or append a fresh binding at the end. -/
def alInsert {α : Type} (k : String) (v : α) : List (String × α) → List (String × α)
  | [] => [(k, v)]
  | (k', v') :: t => if k' = k then (k, v) :: t else (k', v') :: alInsert k v t

/-- The `Backend` store. The source's `hmap : DashMap<String, DashMap<String,
RespFrame>>` and `hset : DashMap<String, DashSet<String>>` fields are
modelled as association lists; the set field is named `hsetStore` here
because the source reuses the name `hset` for both the field and the hash
write method. The scalar `map` field is not needed by any claim. -/
structure Backend where
  hmap : List (String × List (String × RespFrame))
  hsetStore : List (String × List String)

/-- `Backend::new` / `Default`: all maps start empty. -/
def Backend.new : Backend := ⟨[], []⟩

/-- `Backend::hset`: fetch-or-create the inner hash for the key, then
insert/overwrite the field. -/
def Backend.hset (b : Backend) (key field : String) (value : RespFrame) : Backend :=
  let inner := (alLookup key b.hmap).getD []
  { b with hmap := alInsert key (alInsert field value inner) b.hmap }

/-- `Backend::hgetall`: `self.hmap.get(key).map(|v| v.clone())` — absence if
the key is missing, otherwise a clone (deep copy) of the inner map, which
the pure model renders as returning the mapping value itself. -/
def Backend.hgetall (b : Backend) (key : String) : Option (List (String × RespFrame)) :=
  alLookup key b.hmap

/-- `Backend::sadd`: fetch-or-create the set for the key, then
`DashSet::insert`, which returns true iff the member was newly added.
Returns the flag together with the updated store. -/
def Backend.sadd (b : Backend) (key field : String) : Bool × Backend :=
  let s := (alLookup key b.hsetStore).getD []
  if field ∈ s then (false, b)
  else (true, { b with hsetStore := alInsert key (s ++ [field]) b.hsetStore })

/-- `Backend::sismember`: false if the key is absent, else membership in
the stored set. -/
def Backend.sismember (b : Backend) (key member : String) : Bool :=
  match alLookup key b.hsetStore with
  | none => false
  | some s => member ∈ s

/-- The command-layer error type `CommandError` (the two variants the SADD
parser produces). -/
inductive CommandError where
  | InvalidCommand (msg : String)
  | InvalidArgument (msg : String)

/-- The validated `SAdd` command. -/
structure SAdd where
  key : String
  members : List String
deriving DecidableEq

/-- First element of a frame list names the command: it must be a bulk
string spelling the expected name. -/
def nameMatches (f : RespFrame) (name : String) : Bool :=
  match f with
  | .BulkString s => s = name
  | _ => false

/-- Modelled from the spec: `validate_command` of `src/cmd/mod.rs` is not
in the excerpted sources. Per §4.3 it checks that the first element names
the command and that the remaining element count matches the arity; both
violations are invalid-command errors. The spec leaves case treatment open
(§9); exact match is used, which the claims' lowercase inputs satisfy. -/
def validate_command (value : List RespFrame) (names : List String) (n_args : Nat) :
    Except CommandError Unit :=
  if value.length ≠ names.length + n_args then
    .error (.InvalidCommand "wrong number of arguments")
  else if (value.zip names).all (fun p => nameMatches p.1 p.2) then .ok ()
  else .error (.InvalidCommand "unknown command")

/-- Modelled from the spec: `extract_args` of `src/cmd/mod.rs` is not in
the excerpted sources; it yields the frame elements from `start` onward. -/
def extract_args (value : List RespFrame) (start : Nat) : List RespFrame :=
  value.drop start

/-- The member-collection loop of `TryFrom<RespArray> for SAdd`: every
remaining element must be a bulk string; order is preserved. -/
def parseMembers : List RespFrame → Except CommandError (List String)
  | [] => .ok []
  | .BulkString s :: rest => (parseMembers rest).map (s :: ·)
  | _ :: _ => .error (.InvalidArgument "Invalid key")

/-- `TryFrom<RespArray> for SAdd`: reject length 0 and lengths 1–2 with
invalid-command errors, validate the command name, then read the key and
the members (each a bulk string). -/
def SAdd.tryFrom (value : List RespFrame) : Except CommandError SAdd :=
  if value.length = 0 then
    .error (.InvalidCommand "sadd command does not accept null array")
  else if value.length ≤ 2 then
    .error (.InvalidCommand "sadd command needs at least 2 argument")
  else
    match validate_command value ["sadd"] (value.length - 1) with
    | .error e => .error e
    | .ok _ =>
        match extract_args value 1 with
        | .BulkString key :: rest =>
            match parseMembers rest with
            | .error e => .error e
            | .ok members => .ok ⟨key, members⟩
        | _ => .error (.InvalidArgument "Invalid key")

/-- One step of `SAdd::execute`'s iterator chain: run `sadd` for the member
and append the 0/1 integer frame to the response. -/
def SAdd.executeStep (key : String) (acc : List RespFrame × Backend) (m : String) :
    List RespFrame × Backend :=
  let r := acc.2.sadd key m
  (acc.1 ++ [RespFrame.Integer (if r.1 then 1 else 0)], r.2)

/-- `SAdd::execute`: map `sadd` over the members in order, collecting one
integer frame per member into an array result; the backend is threaded
through because each `sadd` observes the previous insertions. -/
def SAdd.execute (c : SAdd) (backend : Backend) : RespFrame × Backend :=
  let r := c.members.foldl (SAdd.executeStep c.key) ([], backend)
  (RespFrame.Array r.1, r.2)

/-! Helper lemmas: decimal printing and parsing. -/

theorem toDecimalAux_all_digits (fuel : Nat) :
    ∀ n x, x ∈ toDecimalAux fuel n → 48 ≤ x ∧ x ≤ 57 := by
  induction fuel with
  | zero => intro n x hx; simp [toDecimalAux] at hx
  | succ f ih =>
      intro n x hx
      unfold toDecimalAux at hx
      by_cases h0 : n = 0
      · simp [h0] at hx
      · simp only [h0, if_false, List.mem_append, List.mem_singleton] at hx
        rcases hx with hx | hx
        · exact ih _ x hx
        · subst hx
          have : n % 10 < 10 := Nat.mod_lt _ (by omega)
          omega

theorem toDecimal_all_digits (n x : Nat) (hx : x ∈ toDecimal n) : 48 ≤ x ∧ x ≤ 57 := by
  unfold toDecimal at hx
  by_cases h0 : n = 0
  · simp [h0] at hx; omega
  · simp only [h0, if_false] at hx
    exact toDecimalAux_all_digits n n x hx

theorem digitsVal_all_digits (l : Bytes) :
    ∀ acc, (∀ x ∈ l, 48 ≤ x ∧ x ≤ 57) →
      digitsVal acc l = some (l.foldl (fun a d => a * 10 + (d - 48)) acc) := by
  induction l with
  | nil => intro acc _; simp [digitsVal]
  | cons c rest ih =>
      intro acc hall
      have hc := hall c (by simp)
      have hrest : ∀ x ∈ rest, 48 ≤ x ∧ x ≤ 57 := fun x hx => hall x (by simp [hx])
      simp only [digitsVal, hc, and_self, if_true, List.foldl_cons]
      exact ih _ hrest

theorem toDecimalAux_foldl (fuel : Nat) :
    ∀ n acc, n ≤ fuel →
      (toDecimalAux fuel n).foldl (fun a d => a * 10 + (d - 48)) acc =
        acc * 10 ^ (toDecimalAux fuel n).length + n := by
  induction fuel with
  | zero => intro n acc hn; interval_cases n; simp [toDecimalAux]
  | succ f ih =>
      intro n acc hn
      by_cases h0 : n = 0
      · simp [toDecimalAux, h0]
      · have hdiv : n / 10 ≤ f := by
          have : n / 10 < n := Nat.div_lt_self (Nat.pos_of_ne_zero h0) (by omega)
          omega
        have hmod : (0:Nat) < 10 := by omega
        unfold toDecimalAux
        simp only [h0, if_false, List.foldl_append, List.foldl_cons, List.foldl_nil,
          List.length_append, List.length_singleton]
        rw [ih _ acc hdiv]
        have hdm : 10 * (n / 10) + n % 10 = n := Nat.div_add_mod n 10
        have : (n % 10 + 48) - 48 = n % 10 := by omega
        rw [this, pow_succ]
        ring_nf
        omega

theorem toDecimal_ne_nil (n : Nat) : toDecimal n ≠ [] := by
  unfold toDecimal
  by_cases h0 : n = 0
  · simp [h0]
  · simp only [h0, if_false]
    obtain ⟨f, hf⟩ : ∃ f, n = f + 1 := ⟨n - 1, by omega⟩
    rw [hf]
    unfold toDecimalAux
    simp

theorem parseNat_toDecimal (n : Nat) : parseNat (toDecimal n) = some n := by
  by_cases h0 : n = 0
  · subst h0; rfl
  · have hne := toDecimal_ne_nil n
    have hd : toDecimal n = toDecimalAux n n := by simp [toDecimal, h0]
    obtain ⟨c, rest, hcr⟩ : ∃ c rest, toDecimal n = c :: rest := by
      cases h : toDecimal n with
      | nil => exact absurd h hne
      | cons c rest => exact ⟨c, rest, rfl⟩
    rw [hcr]
    show digitsVal 0 (c :: rest) = some n
    rw [← hcr]
    rw [digitsVal_all_digits _ 0 (fun x hx => toDecimal_all_digits n x hx)]
    rw [hd, toDecimalAux_foldl n n 0 (le_refl n)]
    simp

/-! Helper lemmas: locating the first CRLF. -/

theorem crlfIdx_eq_none_of_no_cr (l : Bytes) (h : ∀ x ∈ l, x ≠ 13) : crlfIdx l = none := by
  induction l with
  | nil => rfl
  | cons a t ih =>
      have ha : a ≠ 13 := h a (by simp)
      cases t with
      | nil => rfl
      | cons b r =>
          have ht : ∀ x ∈ b :: r, x ≠ 13 := fun x hx => h x (by simp [List.mem_cons] at hx ⊢; tauto)
          unfold crlfIdx
          simp only [ha, false_and, if_false]
          rw [ih ht]
          rfl

theorem crlfIdx_append_of_no_cr (l : Bytes) :
    ∀ r, (∀ x ∈ l, x ≠ 13) → crlfIdx (l ++ r) = (crlfIdx r).map (· + l.length) := by
  induction l with
  | nil =>
      intro r _
      cases h : crlfIdx r <;> simp [h]
  | cons a t ih =>
      intro r h
      have ha : a ≠ 13 := h a (by simp)
      have ht : ∀ x ∈ t, x ≠ 13 := fun x hx => h x (by simp [hx])
      cases t with
      | nil =>
          cases r with
          | nil => rfl
          | cons b rest =>
              show crlfIdx (a :: b :: rest) = (crlfIdx (b :: rest)).map (· + 1)
              simp only [crlfIdx, ha, false_and, if_false]
      | cons c t' =>
          show crlfIdx (a :: c :: (t' ++ r)) = (crlfIdx r).map (· + (t'.length + 1 + 1))
          simp only [crlfIdx, ha, false_and, if_false]
          rw [← List.cons_append, ih r ht]
          cases hj : crlfIdx r
          · rfl
          · simp only [Option.map_some', List.length_cons, Nat.add_assoc]

theorem crlfIdx_cons_crlf (r : Bytes) : crlfIdx (13 :: 10 :: r) = some 0 := by
  unfold crlfIdx
  simp

/-! Helper lemmas: `parse_length` and `decode` on well-formed headers. -/

theorem encode_eq (v : Bytes) :
    BulkString.encode v = 36 :: (toDecimal v.length ++ ([13, 10] ++ (v ++ [13, 10]))) := by
  simp [BulkString.encode, List.append_assoc]

theorem encode_length (v : Bytes) :
    (BulkString.encode v).length = (toDecimal v.length).length + v.length + 5 := by
  simp only [BulkString.encode, List.length_append, List.length_cons, List.length_nil]
  omega

theorem parse_length_header (L : Nat) (r : Bytes) :
    parse_length (36 :: (toDecimal L ++ ([13, 10] ++ r))) =
      .ok ((toDecimal L).length + 1, L) := by
  have hd1 : 1 ≤ (toDecimal L).length := List.length_pos.mpr (toDecimal_ne_nil L)
  have hno13 : ∀ x ∈ toDecimal L, x ≠ 13 := fun x hx => by
    have := toDecimal_all_digits L x hx; omega
  have hfind : find_crlf (36 :: (toDecimal L ++ ([13, 10] ++ r))) =
      some ((toDecimal L).length + 1) := by
    show (crlfIdx ((36 :: (toDecimal L ++ ([13, 10] ++ r))).tail)).map (· + 1) = _
    have htl : (36 :: (toDecimal L ++ ([13, 10] ++ r))).tail = toDecimal L ++ (13 :: 10 :: r) := rfl
    rw [htl, crlfIdx_append_of_no_cr _ _ hno13, crlfIdx_cons_crlf]
    simp
  have hlen3 : ¬((36 :: (toDecimal L ++ ([13, 10] ++ r))).length < 3) := by
    simp only [List.length_cons, List.length_append]
    omega
  have htake : ¬((36 :: (toDecimal L ++ ([13, 10] ++ r))).take 1 ≠ [36]) := fun hc => hc rfl
  have htail : (36 :: (toDecimal L ++ ([13, 10] ++ r))).tail.take ((toDecimal L).length + 1 - 1) =
      toDecimal L := by
    show (toDecimal L ++ (13 :: 10 :: r)).take (toDecimal L).length = toDecimal L
    exact List.take_left _ _
  unfold parse_length
  rw [if_neg hlen3, if_neg htake, hfind]
  simp only [htail, parseNat_toDecimal]

theorem cons_header_drop (D r : Bytes) :
    (36 :: (D ++ ([13, 10] ++ r))).drop (D.length + 1 + CRLF_LEN) = r := by
  have hsplit : (36 :: (D ++ ([13, 10] ++ r))) = (36 :: (D ++ [13, 10])) ++ r := by
    simp [List.append_assoc]
  have hlen : (36 :: (D ++ [13, 10])).length = D.length + 1 + CRLF_LEN := by
    simp only [List.length_cons, List.length_append, List.length_cons, List.length_nil, CRLF_LEN]
  rw [hsplit, ← hlen, List.drop_left]

theorem cons_header_take (D r : Bytes) (k : Nat) :
    (36 :: (D ++ ([13, 10] ++ r))).take (D.length + 3 + k) =
      36 :: (D ++ ([13, 10] ++ r.take k)) := by
  have hsplit : (36 :: (D ++ ([13, 10] ++ r))) = (36 :: (D ++ [13, 10])) ++ r := by
    simp [List.append_assoc]
  have hlen : (36 :: (D ++ [13, 10])).length = D.length + 3 := by
    simp only [List.length_cons, List.length_append, List.length_cons, List.length_nil]
  rw [hsplit, show D.length + 3 + k = (36 :: (D ++ [13, 10])).length + k by rw [hlen],
    List.take_append k]
  simp [List.append_assoc]

theorem decode_header (L : Nat) (r : Bytes) (hr : L + CRLF_LEN ≤ r.length) :
    BulkString.decode (36 :: (toDecimal L ++ ([13, 10] ++ r))) =
      (.ok (r.take L), r.drop (L + CRLF_LEN)) := by
  have hdrop : (36 :: (toDecimal L ++ ([13, 10] ++ r))).drop ((toDecimal L).length + 1 + CRLF_LEN) =
      r := cons_header_drop _ _
  unfold BulkString.decode
  rw [parse_length_header]
  simp only [hdrop]
  rw [if_neg (by omega)]
  have htt : (r.take (L + CRLF_LEN)).take L = r.take L := by
    rw [List.take_take]
    congr 1
    simp [CRLF_LEN]
  rw [htt]

theorem decode_parse_error (buf : Bytes) (e : RespError) (h : parse_length buf = .error e) :
    BulkString.decode buf = (.error e, buf) := by
  unfold BulkString.decode
  rw [h]

theorem decode_short_payload (buf : Bytes) (e1 len : Nat)
    (h : parse_length buf = .ok (e1, len))
    (hlt : (buf.drop (e1 + CRLF_LEN)).length < len + CRLF_LEN) :
    BulkString.decode buf = (.error .NotComplete, buf) := by
  unfold BulkString.decode
  rw [h]
  simp only [hlt, if_true]

theorem alLookup_alInsert {α : Type} (k : String) (v : α) (l : List (String × α)) :
    alLookup k (alInsert k v l) = some v := by
  induction l with
  | nil => simp [alInsert, alLookup]
  | cons p t ih =>
      obtain ⟨k', v'⟩ := p
      by_cases hk : k' = k
      · simp [alInsert, alLookup, hk]
      · simp [alInsert, alLookup, hk, ih]

/-! The claims. -/

/-- C1: decoding the bytes produced by encoding a bulk string yields the
same payload back, and the buffer left behind is empty — exactly
`(encode v).length` bytes were consumed. -/
theorem bulk_string_roundtrip (v : Bytes) :
    BulkString.decode (BulkString.encode v) = (.ok v, []) := by
  rw [encode_eq, decode_header v.length (v ++ [13, 10]) (by simp [CRLF_LEN])]
  have h1 : (v ++ ([13, 10] : Bytes)).take v.length = v := List.take_left _ _
  have h2 : (v ++ ([13, 10] : Bytes)).drop (v.length + CRLF_LEN) = [] := by
    apply List.drop_eq_nil_of_le
    simp [CRLF_LEN]
  rw [h1, h2]

/-- C2: decoding any strict prefix of an encoding yields `NotComplete` and
leaves the buffer unchanged; more generally, whenever decode returns an
error (so no complete value), the buffer is left exactly as it was. -/
theorem bulk_string_decode_strict_prefixes :
    (∀ (v : Bytes) (n : Nat), n < (BulkString.encode v).length →
        BulkString.decode ((BulkString.encode v).take n) =
          (.error .NotComplete, (BulkString.encode v).take n)) ∧
      (∀ (buf : Bytes) (e : RespError), (BulkString.decode buf).1 = .error e →
        (BulkString.decode buf).2 = buf) := by
  constructor
  · intro v n hn
    have hd1 : 1 ≤ (toDecimal v.length).length := List.length_pos.mpr (toDecimal_ne_nil v.length)
    have hno13 : ∀ x ∈ toDecimal v.length, x ≠ 13 := fun x hx => by
      have := toDecimal_all_digits v.length x hx; omega
    have hElen := encode_length v
    have hplen : ((BulkString.encode v).take n).length = n := by
      rw [List.length_take]
      omega
    rcases Nat.lt_or_ge n 3 with h3 | h3
    · exact decode_parse_error _ _ (by unfold parse_length; rw [if_pos (by omega)])
    · obtain ⟨m, hm⟩ : ∃ m, n = m + 1 := ⟨n - 1, by omega⟩
      have hptail : (BulkString.encode v).take n =
          36 :: ((toDecimal v.length ++ ([13, 10] ++ (v ++ [13, 10]))).take m) := by
        rw [encode_eq, hm, List.take_succ_cons]
      rcases Nat.lt_or_ge n ((toDecimal v.length).length + 3) with hB | hC
      · -- the length header is still incomplete: no CRLF is visible yet
        have hcrlf : crlfIdx ((toDecimal v.length ++ ([13, 10] ++ (v ++ [13, 10]))).take m) =
            none := by
          rcases Nat.lt_or_ge m ((toDecimal v.length).length + 1) with hB1 | hB2
          · have heq : (toDecimal v.length ++ ([13, 10] ++ (v ++ [13, 10]))).take m =
                (toDecimal v.length).take m :=
              List.take_append_of_le_length (by omega)
            rw [heq]
            exact crlfIdx_eq_none_of_no_cr _
              (fun x hx => hno13 x (List.take_subset m (toDecimal v.length) hx))
          · have hm2 : m = (toDecimal v.length).length + 1 := by omega
            have heq : (toDecimal v.length ++ ([13, 10] ++ (v ++ [13, 10]))).take m =
                toDecimal v.length ++ [13] := by
              rw [hm2]
              rw [show (toDecimal v.length ++ ([13, 10] ++ (v ++ [13, 10]))) =
                    toDecimal v.length ++ (13 :: (10 :: (v ++ [13, 10]))) from rfl,
                  List.take_append 1]
              rfl
            rw [heq, crlfIdx_append_of_no_cr _ _ hno13]
            rfl
        apply decode_parse_error
        unfold parse_length
        rw [if_neg (by omega), if_neg (fun hc => hc (by rw [hptail]; rfl))]
        have hfind : find_crlf ((BulkString.encode v).take n) = none := by
          show (crlfIdx ((BulkString.encode v).take n).tail).map (· + 1) = none
          rw [hptail]
          show (crlfIdx ((toDecimal v.length ++ ([13, 10] ++ (v ++ [13, 10]))).take m)).map
              (· + 1) = none
          rw [hcrlf]
          rfl
        rw [hfind]
      · -- the header is complete but the payload or terminator is not
        obtain ⟨k, hk⟩ : ∃ k, n = ((toDecimal v.length).length + 3) + k :=
          ⟨n - ((toDecimal v.length).length + 3), by omega⟩
        have hksmall : k < v.length + 2 := by omega
        have hpsplit : (BulkString.encode v).take n =
            36 :: (toDecimal v.length ++ ([13, 10] ++ ((v ++ [13, 10]).take k))) := by
          rw [encode_eq, hk]
          exact cons_header_take _ _ k
        apply decode_short_payload _ ((toDecimal v.length).length + 1) v.length
        · rw [hpsplit]
          exact parse_length_header v.length _
        · have hdrop : ((BulkString.encode v).take n).drop
              ((toDecimal v.length).length + 1 + CRLF_LEN) = (v ++ [13, 10]).take k := by
            rw [hpsplit]
            exact cons_header_drop _ _
          rw [hdrop, List.length_take]
          simp only [List.length_append, List.length_cons, List.length_nil, CRLF_LEN]
          omega
  · intro buf e h
    cases hp : parse_length buf with
    | error e' => rw [decode_parse_error buf e' hp]
    | ok pr =>
        obtain ⟨e1, len⟩ := pr
        by_cases hlt : (buf.drop (e1 + CRLF_LEN)).length < len + CRLF_LEN
        · rw [decode_short_payload buf e1 len hp hlt]
        · exfalso
          unfold BulkString.decode at h
          rw [hp] at h
          simp only [hlt, if_false] at h
          simp at h

/-- C2 witness: a concrete strict prefix — `$1\r\nh\r\n` truncated to its
first 2 bytes — decodes to `NotComplete` with the buffer untouched. -/
theorem bulk_string_decode_strict_prefixes_witness :
    BulkString.decode ((BulkString.encode [104]).take 2) =
      (.error .NotComplete, (BulkString.encode [104]).take 2) :=
  bulk_string_decode_strict_prefixes.1 [104] 2 (by decide)

/-- C3 counterexample: the public constructors map empty input to the null
variant, not to the empty bulk string: `RespBulkString::new` on the empty
byte sequence and `From<String>` on the empty string both yield
`NullBulkString`, which differs from `BulkString []`. -/
theorem new_empty_gives_null_counterexample :
    RespBulkString.new [] = RespBulkString.NullBulkString ∧
      RespBulkString.fromString "" = RespBulkString.NullBulkString ∧
      RespBulkString.new [] ≠ RespBulkString.BulkString [] := by
  refine ⟨rfl, rfl, ?_⟩
  decide

/-- C3 amended: the empty bulk string and the null bulk string are distinct
values, but the public constructors never build the empty bulk string:
empty input yields the null variant, non-empty input the payload-carrying
variant. -/
theorem null_and_empty_distinct (s : Bytes) :
    RespBulkString.BulkString [] ≠ RespBulkString.NullBulkString ∧
      (s = [] → RespBulkString.new s = RespBulkString.NullBulkString) ∧
      (s ≠ [] → RespBulkString.new s = RespBulkString.BulkString s) := by
  refine ⟨by decide, ?_, ?_⟩
  · intro h
    subst h
    rfl
  · intro h
    cases s with
    | nil => exact absurd rfl h
    | cons a t => rfl

/-- C3 witness: on the non-empty input `[104]` the constructor yields the
payload-carrying variant, and the two variants are distinct. -/
theorem null_and_empty_distinct_witness :
    RespBulkString.new [104] = RespBulkString.BulkString [104] :=
  (null_and_empty_distinct [104]).2.2 (by decide)

/-- C6: encoding the bulk string `hello` produces exactly `$5\r\nhello\r\n`
and encoding the null bulk string produces exactly the 5 bytes `$-1\r\n`. -/
theorem encode_hello_and_null_literal :
    BulkString.encode [104, 101, 108, 108, 111] =
        [36, 53, 13, 10, 104, 101, 108, 108, 111, 13, 10] ∧
      NullBulkString.encode = [36, 45, 49, 13, 10] := by
  constructor <;> rfl

/-- C7 counterexample: a buffer with a well-formed `$5` header, 5 payload
bytes present, but `XY` (88, 89) instead of the trailing CRLF, is decoded
successfully to `hello` with the whole buffer consumed — no malformed-frame
error is raised. -/
theorem decode_accepts_bad_terminator_counterexample :
    BulkString.decode [36, 53, 13, 10, 104, 101, 108, 108, 111, 88, 89] =
      (.ok [104, 101, 108, 108, 111], []) := by
  decide

/-- C7 amended: decode never examines the two bytes in the terminator
position: whenever the marker and length field are well-formed and at
least `len + 2` bytes follow the header, decode returns the `len` payload
bytes and consumes `header + len + 2` bytes, whatever the two terminator
bytes are. -/
theorem decode_ignores_terminator_bytes (v s : Bytes) (x y : Nat) :
    BulkString.decode (36 :: (toDecimal v.length ++ ([13, 10] ++ (v ++ ([x, y] ++ s))))) =
      (.ok v, s) := by
  rw [decode_header v.length (v ++ ([x, y] ++ s))
    (by simp only [List.length_append, List.length_cons, List.length_nil, CRLF_LEN]; omega)]
  have h1 : (v ++ ([x, y] ++ s)).take v.length = v := List.take_left _ _
  have h2 : (v ++ ([x, y] ++ s)).drop (v.length + CRLF_LEN) = s := by
    show (v ++ ([x, y] ++ s)).drop (v.length + 2) = s
    rw [List.drop_append 2]
    rfl
  rw [h1, h2]

/-- C8: `expect_length` applied to an encoding followed by arbitrary
trailing bytes returns exactly the encoding's length — the byte count a
successful decode consumes — for both the real and the null variant; it is
a pure function of the buffer and cannot mutate it. -/
theorem expect_length_on_encodings (v s : Bytes) :
    BulkString.expect_length (BulkString.encode v ++ s) = .ok (BulkString.encode v).length ∧
      NullBulkString.expect_length (NullBulkString.encode ++ s) =
        .ok NullBulkString.encode.length := by
  constructor
  · have hbuf : BulkString.encode v ++ s =
        36 :: (toDecimal v.length ++ ([13, 10] ++ (v ++ ([13, 10] ++ s)))) := by
      rw [encode_eq]
      simp [List.append_assoc]
    unfold BulkString.expect_length
    rw [hbuf, parse_length_header, encode_length]
    have harith : (toDecimal v.length).length + 1 + CRLF_LEN + v.length + CRLF_LEN =
        (toDecimal v.length).length + v.length + 5 := by
      simp only [CRLF_LEN]
      omega
    simp only [harith]
  · rfl

/-- C10: `NullBulkString::expect_length` returns `Ok 5` on every buffer —
the empty buffer and buffers unrelated to the `$-1\r\n` sentinel included —
never `NotComplete` and never a format error. -/
theorem null_expect_length_always_five (buf : Bytes) :
    NullBulkString.expect_length buf = .ok 5 := rfl

/-- C4: when m is not yet a member, `sadd(k, m)` returns true (creating the
set if the key is absent); after any `sadd(k, m)`, `sismember(k, m)` is
true and a second `sadd(k, m)` returns false; and `sismember(k, m)` is
false exactly when the key is absent or m is not in the stored set. -/
theorem sadd_sismember_contract (b : Backend) (k m : String) :
    (b.sismember k m = false → (b.sadd k m).1 = true) ∧
      ((b.sadd k m).2.sismember k m = true) ∧
      (((b.sadd k m).2.sadd k m).1 = false) ∧
      (((b.sadd k m).2.sadd k m).2.sismember k m = true) ∧
      (b.sismember k m = false ↔
        (alLookup k b.hsetStore = none ∨
          ∀ s, alLookup k b.hsetStore = some s → m ∉ s)) := by
  cases hl : alLookup k b.hsetStore with
  | none =>
      refine ⟨fun _ => ?_, ?_, ?_, ?_, ?_⟩
      · simp [Backend.sadd, hl]
      · simp [Backend.sadd, Backend.sismember, hl, alLookup_alInsert]
      · simp [Backend.sadd, Backend.sismember, hl, alLookup_alInsert]
      · simp [Backend.sadd, Backend.sismember, hl, alLookup_alInsert]
      · simp [Backend.sismember, hl]
  | some s =>
      by_cases hm : m ∈ s
      · refine ⟨?_, ?_, ?_, ?_, ?_⟩
        · intro h
          simp [Backend.sismember, hl, hm] at h
        · simp [Backend.sadd, Backend.sismember, hl, hm]
        · simp [Backend.sadd, Backend.sismember, hl, hm]
        · simp [Backend.sadd, Backend.sismember, hl, hm]
        · constructor
          · intro h
            simp [Backend.sismember, hl, hm] at h
          · rintro (h | h)
            · exact absurd h (by simp)
            · exact absurd hm (h s rfl)
      · refine ⟨fun _ => ?_, ?_, ?_, ?_, ?_⟩
        · simp [Backend.sadd, hl, hm]
        · simp [Backend.sadd, Backend.sismember, hl, hm, alLookup_alInsert]
        · simp [Backend.sadd, Backend.sismember, hl, hm, alLookup_alInsert]
        · simp [Backend.sadd, Backend.sismember, hl, hm, alLookup_alInsert]
        · constructor
          · intro _
            right
            intro s' hs'
            obtain rfl : s = s' := by injection hs'
            exact hm
          · intro _
            simp [Backend.sismember, hl, hm]

/-- C4 witness: on a fresh backend the first `sadd` returns true, the
second returns false, membership holds afterwards, and `sismember` on the
fresh backend is false. -/
theorem sadd_sismember_contract_witness :
    (Backend.new.sadd "k" "m").1 = true ∧
      ((Backend.new.sadd "k" "m").2.sadd "k" "m").1 = false ∧
      (Backend.new.sadd "k" "m").2.sismember "k" "m" = true ∧
      ((Backend.new.sadd "k" "m").2.sadd "k" "m").2.sismember "k" "m" = true ∧
      Backend.new.sismember "k" "m" = false := by
  have h := sadd_sismember_contract Backend.new "k" "m"
  exact ⟨h.1 rfl, h.2.2.1, h.2.1, h.2.2.2.1, rfl⟩

/-- C5: parsing `SADD` with only the command name or with a key but no
members fails with an invalid-command error (as does the empty array);
`SADD key m1 m2 m1` parses to the command with members in input order, and
executing it on a fresh backend returns the array `[1, 1, 0]`: one integer
per member, in input order, reflecting each `sadd`'s outcome. -/
theorem sadd_command_parse_and_execute (k m1 m2 : String) (hne : m1 ≠ m2) :
    SAdd.tryFrom [RespFrame.BulkString "sadd"] =
        .error (.InvalidCommand "sadd command needs at least 2 argument") ∧
      SAdd.tryFrom [RespFrame.BulkString "sadd", RespFrame.BulkString k] =
        .error (.InvalidCommand "sadd command needs at least 2 argument") ∧
      SAdd.tryFrom [] = .error (.InvalidCommand "sadd command does not accept null array") ∧
      SAdd.tryFrom [RespFrame.BulkString "sadd", RespFrame.BulkString k,
          RespFrame.BulkString m1, RespFrame.BulkString m2, RespFrame.BulkString m1] =
        .ok ⟨k, [m1, m2, m1]⟩ ∧
      (SAdd.execute ⟨k, [m1, m2, m1]⟩ Backend.new).1 =
        RespFrame.Array [.Integer 1, .Integer 1, .Integer 0] := by
  have hne' : ¬(m2 = m1) := fun h => hne h.symm
  refine ⟨rfl, rfl, rfl, rfl, ?_⟩
  simp [SAdd.execute, SAdd.executeStep, Backend.sadd, alLookup, alInsert, hne']

/-- C5 witness: the concrete request `SADD k a b a` parses and executes to
`[1, 1, 0]` on a fresh backend. -/
theorem sadd_command_parse_and_execute_witness :
    SAdd.tryFrom [RespFrame.BulkString "sadd", RespFrame.BulkString "k",
        RespFrame.BulkString "a", RespFrame.BulkString "b", RespFrame.BulkString "a"] =
      .ok ⟨"k", ["a", "b", "a"]⟩ ∧
      (SAdd.execute ⟨"k", ["a", "b", "a"]⟩ Backend.new).1 =
        RespFrame.Array [.Integer 1, .Integer 1, .Integer 0] := by
  have h := sadd_command_parse_and_execute "k" "a" "b" (by decide)
  exact ⟨h.2.2.2.1, h.2.2.2.2⟩

/-- C9: `hgetall` returns absence when the key is missing; when present it
returns the field map as a value (the model of `DashMap::clone`'s deep
copy), and a subsequent `hset` updates the store — whose view becomes the
snapshot with the field inserted — while the snapshot itself is a fixed
value the update provably does not equal when it added a fresh field. -/
theorem hgetall_snapshot (b : Backend) (k f : String) (v : RespFrame) :
    (alLookup k b.hmap = none → b.hgetall k = none) ∧
      (∀ m, b.hgetall k = some m →
        (b.hset k f v).hgetall k = some (alInsert f v m) ∧
          (alLookup f m = none → alInsert f v m ≠ m)) := by
  constructor
  · intro h
    unfold Backend.hgetall
    rw [h]
  · intro m hm
    have hml : alLookup k b.hmap = some m := hm
    constructor
    · unfold Backend.hset Backend.hgetall
      rw [hml]
      simp [alLookup_alInsert]
    · intro hf heq
      have hins := alLookup_alInsert f v m
      rw [heq, hf] at hins
      exact Option.noConfusion hins

/-- C9 witness: a snapshot of the hash at key h taken before an `hset` of a
fresh field differs from the post-update view, and the updated store shows
the inserted field. -/
theorem hgetall_snapshot_witness :
    ((Backend.new.hset "h" "f0" (RespFrame.Integer 7)).hset "h" "f"
          (RespFrame.Integer 8)).hgetall "h" =
        some (alInsert "f" (RespFrame.Integer 8) [("f0", RespFrame.Integer 7)]) ∧
      alInsert "f" (RespFrame.Integer 8) [("f0", RespFrame.Integer 7)] ≠
        [("f0", RespFrame.Integer 7)] := by
  have h := (hgetall_snapshot (Backend.new.hset "h" "f0" (RespFrame.Integer 7)) "h" "f"
    (RespFrame.Integer 8)).2 [("f0", RespFrame.Integer 7)] rfl
  exact ⟨h.1, h.2 rfl⟩

end SimpleRedis
